import Mathlib

/-!
Shallow embedding of `python/infer/batcher.py` (class `ImageBatcher`) from the
TensorRT-YOLO repository, together with theorems checking the specification's
claims about it.

Modelling conventions:
* Python `int` is `Int`.  Python's `int(a / b)` (true division then truncation
  toward zero) is `Int.tdiv` guarded by an explicit `zeroDivision` error, since
  Python raises `ZeroDivisionError` where Lean's total division returns 0.
  Python's floor division `//` is `Int.fdiv`, likewise guarded.
* `pathlib.Path` values are path strings.  The filesystem is a value of
  `FSNode`; `Path.suffix` is the `suffix` field of a directory entry and
  `Path.is_file()` its `isFile` field.  Python's `sorted` on paths (a stable
  sort by lexicographic path order) is `List.insertionSort (· ≤ ·)`, a stable
  sort over the same order.
* `random.shuffle` is an opaque reordering function passed as a parameter; it
  is applied only when `shuffle_files` is true.
* Pixel values use `ℚ` in place of numpy floating-point scalars; the numpy
  dtype parameter is abstracted away.
* `cv2.imread` / the decode collaborator is out of scope per the spec and is
  passed in at the interface `decode(path) -> raw | DecodeError`; the
  `letterbox` collaborator (from `python/utils`, outside the embedded file) is
  likewise a parameter returning the resized image and its transform record.
* `ThreadPoolExecutor.map` is modelled by `executorMap`: the workers finish in
  an arbitrary completion order (the `schedule` list), each depositing
  `(index, result)` in a completion log, and the results are read back in
  input-index order, re-raising the first per-worker error in input order,
  exactly as iterating `executor.map`'s result does.
-/

/-- Errors raised by `ImageBatcher` construction.  The spec names them
`NotFoundError`, `EmptyInputError`, `InsufficientInputError`; the code raises
`ValueError` with distinct messages, modelled as distinct constructors.
`zeroDivision` models Python's `ZeroDivisionError` from unguarded division. -/
inductive BatchError : Type
  | notFound
  | emptyInput
  | noValidImages
  | insufficientInput
  | zeroDivision
  deriving Repr, DecidableEq

deriving instance DecidableEq for Except

/-- Error of the external decode collaborator (`decode(path) -> raw | DecodeError`). -/
inductive DecodeError : Type
  | decodeFailed (path : String)
  deriving Repr, DecidableEq

/-- The 4-tuple tensor shape descriptor `(N, D1, D2, D3)` (`shape` in the code). -/
structure Shape4 : Type where
  s0 : Int
  s1 : Int
  s2 : Int
  s3 : Int
  deriving Repr, DecidableEq

/-- Clamp a (nonnegative-step) Python slice index into `[0, len]`:
negative indices count from the end, positive ones are capped at `len`. -/
def pyIndex (len : Nat) (i : Int) : Nat :=
  if i < 0 then ((len : Int) + i).toNat else min i.toNat len

/-- Python slice `xs[l:r]` (step 1). -/
def pySlice {α : Type} (xs : List α) (l r : Int) : List α :=
  (xs.take (pyIndex xs.length r)).drop (pyIndex xs.length l)

/-- One directory entry as seen by `Path.iterdir`: its path string, whether it
is a regular file (`is_file`), and its extension (`suffix`). -/
structure DirEntry : Type where
  path : String
  isFile : Bool
  suffix : String
  deriving Repr, DecidableEq

/-- The input location: missing, an existing non-directory (single file), or a
directory with its direct entries. -/
inductive FSNode : Type
  | missing
  | file (path : String)
  | dir (entries : List DirEntry)
  deriving Repr, DecidableEq

/-- The fixed recognized extension set (`extensions` in `_find_images`). -/
def imageExtensions : List String := [".jpg", ".jpeg", ".png", ".bmp"]

/-- Python's `str.lower()`, modelled characterwise over the string's data.
(`String.toLower` is the same function, but its `mapAux` implementation uses
well-founded recursion that the kernel cannot evaluate, so the embedding maps
`Char.toLower` over the character list directly.) -/
def lowerStr (s : String) : String := ⟨s.data.map Char.toLower⟩

/-- The `is_image` lambda of `_find_images`:
`file_path.is_file() and file_path.suffix.lower() in extensions`. -/
def is_image (e : DirEntry) : Bool :=
  e.isFile && imageExtensions.contains (lowerStr e.suffix)

/-- `ImageBatcher._find_images`: validate existence, enumerate and sort when a
directory (filtering by `is_image`), wrap a single file unfiltered, optionally
shuffle, and reject an empty result. -/
def _find_images (root : FSNode) (shuffle_files : Bool)
    (shuffle : List String → List String) : Except BatchError (List String) :=
  match root with
  | .missing => .error .notFound
  | .file p =>
      let images := [p]
      let images := if shuffle_files then shuffle images else images
      if images = [] then .error .emptyInput else .ok images
  | .dir entries =>
      let images :=
        List.insertionSort (· ≤ ·) ((entries.filter fun e => is_image e).map DirEntry.path)
      let images := if shuffle_files then shuffle images else images
      if images = [] then .error .emptyInput else .ok images

/-- `ImageBatcher._handle_exact_batches`, returning the updated
`(images, num_images)` pair.  When `exact_batches` is set the code computes
`num_images = batch_size * (num_images // batch_size)` (floor division, a
`ZeroDivisionError` when `batch_size = 0`), raises when that is `< 1`, and
truncates `images` to the first `num_images` entries. -/
def _handle_exact_batches (images : List String) (num_images : Int)
    (batch_size : Int) (exact_batches : Bool) :
    Except BatchError (List String × Int) :=
  if exact_batches then
    if batch_size = 0 then .error .zeroDivision
    else
      let num_images := batch_size * Int.fdiv num_images batch_size
      if num_images < 1 then .error .insufficientInput
      else .ok (pySlice images 0 num_images, num_images)
  else .ok (images, num_images)

/-- `ImageBatcher._handle_tensor_shape`: start from `(-1, -1)`, set
`(height, width) = (s2, s3)` when `shape[1] == 3`, else `(s1, s2)` when
`shape[3] == 3`.  Returns `(width, height)` as the code does. -/
def _handle_tensor_shape (shape : Shape4) : Int × Int :=
  if shape.s1 = 3 then (shape.s3, shape.s2)
  else if shape.s3 = 3 then (shape.s2, shape.s1)
  else (-1, -1)

/-- The constructed `ImageBatcher` state: the fields assigned by `__init__`
(minus the abstracted numpy dtype). -/
structure ImageBatcher : Type where
  images : List String
  num_images : Int
  shape : Shape4
  batch_size : Int
  width : Int
  height : Int
  num_batches : Int
  batches : List (List String)
  deriving Repr, DecidableEq

/-- The part of `ImageBatcher.__init__` after image discovery: the
`num_images < 1` re-check, `batch_size = shape[0]`, exact-batch handling,
tensor-shape handling, then `num_batches = 1 + int((num_images - 1) / batch_size)`
(true division truncated toward zero, a `ZeroDivisionError` when
`batch_size = 0`) and the contiguous slicing
`images[i * batch_size : (i + 1) * batch_size]` for `i in range(num_batches)`. -/
def mkBatcher (images0 : List String) (shape : Shape4) (exact_batches : Bool) :
    Except BatchError ImageBatcher :=
  let num_images : Int := images0.length
  if num_images < 1 then .error .noValidImages
  else
    let batch_size := shape.s0
    match _handle_exact_batches images0 num_images batch_size exact_batches with
    | .error e => .error e
    | .ok (images, num_images) =>
        let wh := _handle_tensor_shape shape
        if batch_size = 0 then .error .zeroDivision
        else
          let num_batches : Int := 1 + Int.tdiv (num_images - 1) batch_size
          let batches :=
            (List.range num_batches.toNat).map fun (i : Nat) =>
              pySlice images ((i : Int) * batch_size) (((i : Int) + 1) * batch_size)
          .ok ⟨images, num_images, shape, batch_size, wh.1, wh.2, num_batches, batches⟩

/-- `ImageBatcher.__init__`: discover images, then run the rest of the
constructor. -/
def ImageBatcher.init (root : FSNode) (shape : Shape4) (exact_batches : Bool)
    (shuffle_files : Bool) (shuffle : List String → List String) :
    Except BatchError ImageBatcher :=
  match _find_images root shuffle_files shuffle with
  | .error e => .error e
  | .ok images0 => mkBatcher images0 shape exact_batches

/-- A decoded raster image in `(height, width, channel)` order, channels in the
decoder's native BGR order, pixel values as rationals. -/
structure RawImage : Type where
  height : Nat
  width : Nat
  pixel : Nat → Nat → Nat → ℚ

/-- A preprocessed sample in `(channel, height, width)` order. -/
structure ChwImage : Type where
  height : Nat
  width : Nat
  pixel : Nat → Nat → Nat → ℚ

/-- `ImageBatcher._preprocess_image`, parameterized by the external
collaborators: the decoder (spec interface `decode(path) -> raw | DecodeError`)
and `letterbox` (resize/pad to the `(height, width)` target, returning the
transformed image and a transform record of abstract type `ρ`).  After
letterboxing, `cv2.cvtColor(..., COLOR_BGR2RGB)` reads output channel `c` from
input channel `2 - c`, the cast-and-divide normalizes by 255, and
`np.transpose(image, (2, 0, 1))` reindexes `(y, x, c)` as `(c, y, x)`. -/
def _preprocess_image {ρ : Type}
    (imread : String → Except DecodeError RawImage)
    (letterbox : RawImage → Int × Int → RawImage × ρ)
    (self : ImageBatcher) (image_path : String) :
    Except DecodeError (ChwImage × ρ) :=
  match imread image_path with
  | .error e => .error e
  | .ok image =>
      let lb := letterbox image (self.height, self.width)
      let rgbNorm : Nat → Nat → Nat → ℚ := fun y x c => lb.1.pixel y x (2 - c) / 255
      let chw : ChwImage := ⟨lb.1.height, lb.1.width, fun c y x => rgbNorm y x c⟩
      .ok (chw, lb.2)

/-- Model of `list(executor.map(f, xs))` for a completion order `schedule`:
each worker `i` computes `f xs[i]` and deposits `(i, result)` in a completion
log in completion order; the results are then read back in input-index order
(the order `executor.map` yields them), and reading re-raises the first
per-worker error in input order, which aborts the surrounding `list(...)`. -/
def executorMap {ε α β : Type} (f : α → Except ε β) (xs : List α)
    (schedule : List Nat) : Except ε (List β) :=
  let log : List (Nat × Except ε β) :=
    schedule.filterMap fun i => (xs[i]?).map fun x => (i, f x)
  ((List.range xs.length).filterMap fun i =>
      (log.find? fun e => e.1 == i).map Prod.snd).mapM id

/-- One yielded tuple of `ImageBatcher.__iter__`: the batch tensor (a list of
`batch_size` slots, each a 3-axis array), the batch's image paths, and the
per-image transform records. -/
structure BatchTuple (ρ : Type) : Type where
  batch_data : List (Nat → Nat → Nat → ℚ)
  batch_images : List String
  batch_shape : List ρ

/-- The body of `ImageBatcher.__iter__` for one batch: allocate
`np.zeros(self.shape, ...)` (modelled as `shape.s0` zero slots), run the
parallel map, then `batch_data[idx] = im` and `batch_shape.append(shape)` for
each result in input order, and yield
`(np.ascontiguousarray(batch_data), batch_images, batch_shape)`. -/
def produceBatch {ρ : Type}
    (imread : String → Except DecodeError RawImage)
    (letterbox : RawImage → Int × Int → RawImage × ρ)
    (self : ImageBatcher) (batch_images : List String) (schedule : List Nat) :
    Except DecodeError (BatchTuple ρ) :=
  let batch_data : List (Nat → Nat → Nat → ℚ) :=
    List.replicate self.shape.s0.toNat fun _ _ _ => 0
  match executorMap (_preprocess_image imread letterbox self) batch_images schedule with
  | .error e => .error e
  | .ok results =>
      let batch_data := results.enum.foldl (fun bd p => bd.set p.1 p.2.1.pixel) batch_data
      let batch_shape := results.map Prod.snd
      .ok ⟨batch_data, batch_images, batch_shape⟩

/-- `ImageBatcher.__iter__` in full: produce the batches in order, stopping at
(and surfacing) the first failing batch, with a completion order per batch. -/
def iterBatches {ρ : Type}
    (imread : String → Except DecodeError RawImage)
    (letterbox : RawImage → Int × Int → RawImage × ρ)
    (self : ImageBatcher) (schedule : Nat → List Nat) :
    Except DecodeError (List (BatchTuple ρ)) :=
  self.batches.enum.mapM fun p => produceBatch imread letterbox self p.2 (schedule p.1)

/-! ### Concrete sample values used by the witness theorems -/

/-- A directory listing used as a concrete discovery input: one recognized
image file (uppercase extension), one unrecognized extension, one entry that
is not a regular file. -/
def sampleEntries : List DirEntry :=
  [⟨"b.JPG", true, ".JPG"⟩, ⟨"c.txt", true, ".txt"⟩, ⟨"d.png", false, ".png"⟩]

/-- A concrete decoded 2x2 image with constant pixel value 1. -/
def sampleRaw : RawImage := ⟨2, 2, fun _ _ _ => 1⟩

/-- A decode collaborator that always succeeds with `sampleRaw`. -/
def okread : String → Except DecodeError RawImage := fun _ => .ok sampleRaw

/-- A decode collaborator that always fails. -/
def failread : String → Except DecodeError RawImage := fun p => .error (.decodeFailed p)

/-- A letterbox collaborator that returns its input unchanged and records the
requested target as its transform record. -/
def idLetterbox : RawImage → Int × Int → RawImage × (Int × Int) := fun im t => (im, t)

/-- The batcher built from the single file `a.jpg` with shape `(2, 3, 4, 4)`. -/
def sampleOkBatcher : ImageBatcher :=
  ⟨["a.jpg"], 1, ⟨2, 3, 4, 4⟩, 2, 4, 4, 1, [["a.jpg"]]⟩

/-- The per-image preprocessing result for the sample collaborators. -/
def sampleG : String → ChwImage × (Int × Int) :=
  fun _ => (⟨2, 2, fun c y x => sampleRaw.pixel y x (2 - c) / 255⟩, (4, 4))

/-- The batch tuple produced for one sample image under `okread`/`idLetterbox`. -/
def sampleTuple : BatchTuple (Int × Int) :=
  ⟨[fun c y x => sampleRaw.pixel y x (2 - c) / 255, fun _ _ _ => 0], ["a.jpg"], [(4, 4)]⟩

/-! ### Arithmetic and slicing helper lemmas -/

theorem tdiv_natCast (m k : Nat) : Int.tdiv (m : Int) (k : Int) = ((m / k : Nat) : Int) :=
  (Int.ofNat_tdiv m k).symm

theorem fdiv_natCast (m k : Nat) : Int.fdiv (m : Int) (k : Int) = ((m / k : Nat) : Int) := by
  rw [Int.fdiv_eq_ediv _ (by omega)]
  exact (Int.ofNat_ediv m k).symm

theorem pyIndex_natCast (len a : Nat) : pyIndex len (a : Int) = min a len := by
  unfold pyIndex
  rw [if_neg (by omega)]
  omega

theorem pySlice_natCast {α : Type} (xs : List α) (a b : Nat) :
    pySlice xs (a : Int) (b : Int) = (xs.drop a).take (b - a) := by
  apply List.ext_getElem?
  intro i
  simp only [pySlice, pyIndex_natCast, List.getElem?_drop, List.getElem?_take]
  by_cases h1 : min a xs.length + i < min b xs.length
  · rw [if_pos h1, if_pos (by omega)]
    congr 1
    omega
  · rw [if_neg h1]
    by_cases h2 : i < b - a
    · rw [if_pos h2]
      exact (List.getElem?_eq_none (by omega)).symm
    · rw [if_neg h2]

theorem pySlice_zero_natCast {α : Type} (xs : List α) (b : Nat) :
    pySlice xs 0 (b : Int) = xs.take b := by
  have h0 : (0 : Int) = ((0 : Nat) : Int) := rfl
  rw [h0, pySlice_natCast]
  simp

/-! ### Claim C1: tensor-shape layout inference -/

/-- Claim C1 (counterexample): the claim states that a shape in which both
position 1 and position 3 equal 3 yields the unresolved sentinel `(-1, -1)`,
but `_handle_tensor_shape` on `(1, 3, 3, 3)` takes the `shape[1] == 3` branch
first and returns `(3, 3)`. -/
theorem handle_tensor_shape_both_counterexample :
    _handle_tensor_shape ⟨1, 3, 3, 3⟩ ≠ (-1, -1) ∧
    _handle_tensor_shape ⟨1, 3, 3, 3⟩ = (3, 3) := by
  constructor
  · decide
  · decide

/-- Claim C1 (amended): `_handle_tensor_shape` returns `(width, height)` as
`(D3, D2)` whenever position 1 equals 3 (even if position 3 also equals 3,
since the `shape[1] == 3` branch takes priority), `(D2, D1)` when position 1
differs from 3 and position 3 equals 3, and the sentinel `(-1, -1)` only when
neither position equals 3. -/
theorem handle_tensor_shape_spec (s : Shape4) :
    (s.s1 = 3 → _handle_tensor_shape s = (s.s3, s.s2)) ∧
    (s.s1 ≠ 3 → s.s3 = 3 → _handle_tensor_shape s = (s.s2, s.s1)) ∧
    (s.s1 ≠ 3 → s.s3 ≠ 3 → _handle_tensor_shape s = (-1, -1)) := by
  unfold _handle_tensor_shape
  refine ⟨fun h1 => ?_, fun h1 h3 => ?_, fun h1 h3 => ?_⟩
  · rw [if_pos h1]
  · rw [if_neg h1, if_pos h3]
  · rw [if_neg h1, if_neg h3]

/-- Claim C1 (witness): the amended statement evaluated on the three shapes
`(2,3,5,7)`, `(2,5,7,3)` and `(2,5,7,9)`. -/
theorem handle_tensor_shape_spec_witness :
    _handle_tensor_shape ⟨2, 3, 5, 7⟩ = (7, 5) ∧
    _handle_tensor_shape ⟨2, 5, 7, 3⟩ = (7, 5) ∧
    _handle_tensor_shape ⟨2, 5, 7, 9⟩ = (-1, -1) :=
  ⟨(handle_tensor_shape_spec ⟨2, 3, 5, 7⟩).1 rfl,
   (handle_tensor_shape_spec ⟨2, 5, 7, 3⟩).2.1 (by decide) rfl,
   (handle_tensor_shape_spec ⟨2, 5, 7, 9⟩).2.2 (by decide) (by decide)⟩

/-! ### Claim C8: the unresolved sentinel is never rejected -/

/-- Claim C8 (code divergence): on the shape `(1, 4, 5, 6)`, in which neither
position 1 nor position 3 equals 3, construction succeeds with the sentinel
`width = height = -1` instead of rejecting with `LayoutIndeterminateError`;
no such check (and no such error) exists anywhere in the constructor, so
per-image preprocessing would be invoked with `(-1, -1)` as its letterbox
resize target. -/
theorem init_indeterminate_not_rejected :
    ∃ b, ImageBatcher.init (FSNode.file "img.jpg") ⟨1, 4, 5, 6⟩ false false id = .ok b ∧
      b.width = -1 ∧ b.height = -1 :=
  ⟨⟨["img.jpg"], 1, ⟨1, 4, 5, 6⟩, 1, -1, -1, 1, [["img.jpg"]]⟩, by decide, rfl, rfl⟩

/-! ### Claim C10: division by zero on a zero batch dimension -/

theorem find_images_never_zeroDivision (root : FSNode) (sf : Bool)
    (sh : List String → List String) :
    _find_images root sf sh ≠ .error .zeroDivision := by
  cases root with
  | missing => simp [_find_images]
  | file p =>
      simp only [_find_images]
      split <;> split <;> simp
  | dir entries =>
      simp only [_find_images]
      split <;> split <;> simp

theorem handle_exact_ne_zeroDivision (images : List String) (n bs : Int) (eb : Bool)
    (hbs : 1 ≤ bs) :
    _handle_exact_batches images n bs eb ≠ .error .zeroDivision := by
  simp only [_handle_exact_batches]
  by_cases heb : eb = true
  · rw [if_pos heb, if_neg (show ¬ bs = 0 by omega)]
    split <;> simp
  · rw [if_neg heb]
    simp

theorem mkBatcher_zero_bs (images0 : List String) (shape : Shape4) (eb : Bool)
    (h0 : shape.s0 = 0) (hlen : 1 ≤ images0.length) :
    mkBatcher images0 shape eb = .error .zeroDivision := by
  simp only [mkBatcher]
  rw [if_neg (show ¬ ((images0.length : Int) < 1) by omega)]
  by_cases heb : eb = true
  · have hhe : _handle_exact_batches images0 images0.length shape.s0 eb = .error .zeroDivision := by
      simp only [_handle_exact_batches]
      rw [if_pos heb, if_pos h0]
    rw [hhe]
  · have hhe : _handle_exact_batches images0 images0.length shape.s0 eb = .ok (images0, images0.length) := by
      simp only [_handle_exact_batches]
      rw [if_neg heb]
    rw [hhe]
    simp [h0]

theorem mkBatcher_ne_zeroDivision (images0 : List String) (shape : Shape4) (eb : Bool)
    (hbs : 1 ≤ shape.s0) :
    mkBatcher images0 shape eb ≠ .error .zeroDivision := by
  simp only [mkBatcher]
  by_cases h1 : (images0.length : Int) < 1
  · rw [if_pos h1]
    simp
  · rw [if_neg h1]
    cases hhe : _handle_exact_batches images0 images0.length shape.s0 eb with
    | error e =>
        have h2 := handle_exact_ne_zeroDivision images0 (images0.length : Int) shape.s0 eb hbs
        rw [hhe] at h2
        simp only [ne_eq, Except.error.injEq] at h2 ⊢
        exact h2
    | ok out =>
        obtain ⟨imgs1, m⟩ := out
        have hne : ¬ shape.s0 = 0 := by omega
        simp [hne]

/-- Claim C10: with a resolved non-empty image list, a shape whose first
component is 0 makes construction abort with Python's unguarded
`ZeroDivisionError` (not one of the specified errors), while under the
precondition `shape.s0 >= 1` no division-by-zero can occur anywhere in
construction. -/
theorem init_zero_batch_spec (root : FSNode) (shape : Shape4) (eb sf : Bool)
    (sh : List String → List String) :
    (shape.s0 = 0 →
      (∃ imgs, _find_images root sf sh = .ok imgs ∧ 1 ≤ imgs.length) →
      ImageBatcher.init root shape eb sf sh = .error .zeroDivision) ∧
    (1 ≤ shape.s0 → ImageBatcher.init root shape eb sf sh ≠ .error .zeroDivision) := by
  constructor
  · rintro h0 ⟨imgs, hfind, hlen⟩
    unfold ImageBatcher.init
    rw [hfind]
    exact mkBatcher_zero_bs imgs shape eb h0 hlen
  · intro hbs
    unfold ImageBatcher.init
    cases hfind : _find_images root sf sh with
    | error e =>
        have := find_images_never_zeroDivision root sf sh
        rw [hfind] at this
        simpa using this
    | ok imgs => exact mkBatcher_ne_zeroDivision imgs shape eb hbs

/-- Claim C10 (witness): a one-file input with shapes `(0,3,4,4)` and
`(2,3,4,4)`. -/
theorem init_zero_batch_spec_witness :
    ImageBatcher.init (FSNode.file "a.jpg") ⟨0, 3, 4, 4⟩ false false id = .error .zeroDivision ∧
    ImageBatcher.init (FSNode.file "a.jpg") ⟨2, 3, 4, 4⟩ false false id ≠ .error .zeroDivision :=
  ⟨(init_zero_batch_spec (FSNode.file "a.jpg") ⟨0, 3, 4, 4⟩ false false id).1 rfl
      ⟨["a.jpg"], rfl, by decide⟩,
   (init_zero_batch_spec (FSNode.file "a.jpg") ⟨2, 3, 4, 4⟩ false false id).2 (by decide)⟩

/-! ### Claim C5: exact-batch truncation -/

theorem handle_exact_true_natCast (images : List String) (B : Nat) (hB : 1 ≤ B) :
    _handle_exact_batches images (images.length : Int) (B : Int) true =
      if images.length < B then .error .insufficientInput
      else .ok (images.take (B * (images.length / B)),
                ((B * (images.length / B) : Nat) : Int)) := by
  have hcast : (B : Int) * Int.fdiv (images.length : Int) (B : Int) =
      ((B * (images.length / B) : Nat) : Int) := by
    rw [fdiv_natCast]
    push_cast
    ring
  simp only [_handle_exact_batches, if_true, hcast]
  rw [if_neg (show ¬ (B : Int) = 0 by omega)]
  by_cases hlt : images.length < B
  · have h0 : images.length / B = 0 := Nat.div_eq_of_lt hlt
    rw [if_pos hlt, if_pos (show ((B * (images.length / B) : Nat) : Int) < 1 by
      rw [h0]
      simp)]
  · have h1 : 1 ≤ images.length / B := (Nat.one_le_div_iff (by omega)).mpr (by omega)
    have h2 : 1 ≤ B * (images.length / B) := by
      calc 1 = 1 * 1 := rfl
      _ ≤ B * (images.length / B) := Nat.mul_le_mul hB h1
    rw [if_neg hlt, if_neg (show ¬ ((B * (images.length / B) : Nat) : Int) < 1 by omega),
      pySlice_zero_natCast]

/-- Claim C5: under `batch_size = B >= 1`, exact-batch handling with the flag
off leaves the image list unchanged; with the flag on it fails with the
insufficient-input error exactly when the image count is below `B`, and
otherwise truncates the list to its first `B * floor(count / B)` elements — a
prefix of the current order whose length is that exact multiple of `B`. -/
theorem exact_batches_spec (images : List String) (B : Nat) (hB : 1 ≤ B) :
    (_handle_exact_batches images (images.length : Int) (B : Int) false =
      .ok (images, (images.length : Int))) ∧
    (images.length < B →
      _handle_exact_batches images (images.length : Int) (B : Int) true =
        .error .insufficientInput) ∧
    (B ≤ images.length →
      _handle_exact_batches images (images.length : Int) (B : Int) true =
        .ok (images.take (B * (images.length / B)),
             ((B * (images.length / B) : Nat) : Int)) ∧
      (B * (images.length / B)) % B = 0 ∧
      1 ≤ B * (images.length / B) ∧
      (images.take (B * (images.length / B))).length = B * (images.length / B)) := by
  refine ⟨?_, fun hlt => ?_, fun hge => ⟨?_, ?_, ?_, ?_⟩⟩
  · simp [_handle_exact_batches]
  · rw [handle_exact_true_natCast images B hB, if_pos hlt]
  · rw [handle_exact_true_natCast images B hB, if_neg (by omega)]
  · exact Nat.mul_mod_right B _
  · have h1 : 1 ≤ images.length / B := (Nat.one_le_div_iff (by omega)).mpr hge
    calc 1 = 1 * 1 := rfl
    _ ≤ B * (images.length / B) := Nat.mul_le_mul hB h1
  · rw [List.length_take]
    have h := Nat.div_mul_le_self images.length B
    have hcomm : images.length / B * B = B * (images.length / B) := Nat.mul_comm _ _
    omega

/-- Claim C5 (witness): three images with batch size two truncate to the first
two; a single image with batch size two fails. -/
theorem exact_batches_spec_witness :
    _handle_exact_batches ["a.jpg", "b.jpg", "c.jpg"] 3 2 true = .ok (["a.jpg", "b.jpg"], 2) ∧
    _handle_exact_batches ["a.jpg"] 1 2 true = .error .insufficientInput :=
  ⟨((exact_batches_spec ["a.jpg", "b.jpg", "c.jpg"] 2 (by decide)).2.2 (by decide)).1,
   (exact_batches_spec ["a.jpg"] 2 (by decide)).2.1 (by decide)⟩

/-! ### Claim C6: image discovery -/

theorem find_images_dir_noshuffle (entries : List DirEntry) (sh : List String → List String) :
    _find_images (.dir entries) false sh =
      if (List.insertionSort (· ≤ ·) ((entries.filter fun e => is_image e).map DirEntry.path)) = []
      then .error .emptyInput
      else .ok (List.insertionSort (· ≤ ·)
        ((entries.filter fun e => is_image e).map DirEntry.path)) := rfl

/-- Claim C6: discovery (without shuffling) fails with the not-found error on a
missing root; wraps an existing single file unfiltered (whatever its
extension); on a directory fails with the empty-input error exactly when no
direct regular-file entry has a recognized extension (case-insensitively), and
otherwise returns exactly those entries' paths sorted lexicographically. -/
theorem find_images_spec (sh : List String → List String) :
    (_find_images .missing false sh = .error .notFound) ∧
    (∀ p, _find_images (.file p) false sh = .ok [p]) ∧
    (∀ entries : List DirEntry,
      (((entries.filter fun e => is_image e) = [])
        ↔ _find_images (.dir entries) false sh = .error .emptyInput) ∧
      ∀ l, _find_images (.dir entries) false sh = .ok l →
        l.Perm ((entries.filter fun e => is_image e).map DirEntry.path) ∧
        l.Sorted (· ≤ ·)) := by
  refine ⟨rfl, fun p => rfl,
    fun entries => ⟨⟨fun hnil => ?_, fun herr => ?_⟩, fun l hok => ?_⟩⟩
  · rw [find_images_dir_noshuffle, if_pos (by rw [hnil]; rfl)]
  · rw [find_images_dir_noshuffle] at herr
    by_cases hs :
        List.insertionSort (· ≤ ·) ((entries.filter fun e => is_image e).map DirEntry.path) = []
    · have hperm := List.perm_insertionSort ((· ≤ ·) : String → String → Prop)
        ((entries.filter fun e => is_image e).map DirEntry.path)
      rw [hs] at hperm
      exact List.map_eq_nil_iff.mp hperm.symm.eq_nil
    · rw [if_neg hs] at herr
      cases herr
  · rw [find_images_dir_noshuffle] at hok
    by_cases hs :
        List.insertionSort (· ≤ ·) ((entries.filter fun e => is_image e).map DirEntry.path) = []
    · rw [if_pos hs] at hok
      cases hok
    · rw [if_neg hs] at hok
      have hl : l =
          List.insertionSort (· ≤ ·) ((entries.filter fun e => is_image e).map DirEntry.path) := by
        cases hok
        rfl
      subst hl
      exact ⟨List.perm_insertionSort _ _, List.sorted_insertionSort _ _⟩

/-- Claim C6 (witness): a lone non-image file is wrapped unfiltered, and the
sample directory resolves to exactly its one recognized raster file. -/
theorem find_images_spec_witness :
    _find_images (FSNode.file "solo.txt") false id = .ok ["solo.txt"] ∧
    (["b.JPG"].Perm ((sampleEntries.filter fun e => is_image e).map DirEntry.path) ∧
      List.Sorted (· ≤ ·) ["b.JPG"]) :=
  ⟨(find_images_spec id).2.1 "solo.txt",
   ((find_images_spec id).2.2 sampleEntries).2 ["b.JPG"] (by decide)⟩

/-! ### Claim C2: batch partitioning -/

theorem one_add_pred_div (n B : Nat) (hn : 1 ≤ n) (hB : 1 ≤ B) :
    1 + (n - 1) / B = (n + B - 1) / B := by
  have h : n + B - 1 = (n - 1) + B := by omega
  rw [h, Nat.add_div_right _ (by omega)]
  omega

theorem le_numBatches_mul (n B : Nat) (hn : 1 ≤ n) (hB : 1 ≤ B) :
    n ≤ (1 + (n - 1) / B) * B := by
  have h1 := Nat.div_add_mod (n - 1) B
  have h2 := Nat.mod_lt (n - 1) (show 0 < B by omega)
  have h3 : (1 + (n - 1) / B) * B = B + B * ((n - 1) / B) := by ring
  omega

theorem flatten_chunks {α : Type} (B : Nat) :
    ∀ (k : Nat) (xs : List α), xs.length ≤ k * B →
      (((List.range k).map fun i => (xs.drop (i * B)).take B)).flatten = xs := by
  intro k
  induction k with
  | zero =>
      intro xs h
      have hx : xs = [] := List.length_eq_zero.mp (by omega)
      subst hx
      rfl
  | succ k ih =>
      intro xs h
      rw [List.range_succ_eq_map, List.map_cons, List.map_map]
      have hfun : ((fun i => (xs.drop (i * B)).take B) ∘ Nat.succ) =
          fun i => ((xs.drop B).drop (i * B)).take B := by
        funext i
        simp only [Function.comp, List.drop_drop]
        have hm : Nat.succ i * B = B + i * B := by
          rw [Nat.succ_mul]
          omega
        rw [hm]
      rw [hfun, List.flatten_cons]
      have hdrop0 : List.take B (List.drop (0 * B) xs) = List.take B xs := by
        simp
      rw [hdrop0, ih (xs.drop B) (by
        rw [List.length_drop]
        have hsm : (k + 1) * B = k * B + B := by ring
        omega)]
      exact List.take_append_drop B xs

theorem last_chunk_length (n B : Nat) (hn : 1 ≤ n) (hB : 1 ≤ B) :
    min B (n - ((n - 1) / B) * B) = if n % B = 0 then B else n % B := by
  have hq := Nat.div_add_mod n B
  have hr : n % B < B := Nat.mod_lt n (by omega)
  by_cases h : n % B = 0
  · rw [if_pos h]
    have hBn : B ≤ n := by
      by_contra hlt
      have := Nat.mod_eq_of_lt (show n < B by omega)
      omega
    have hq1 : 1 ≤ n / B := (Nat.one_le_div_iff (by omega)).mpr hBn
    obtain ⟨q1, hq1'⟩ : ∃ q1, n / B = q1 + 1 := ⟨n / B - 1, by omega⟩
    rw [hq1'] at hq
    have hmul : B * (q1 + 1) = B * q1 + B := by ring
    have he : n - 1 = (B - 1) + B * q1 := by omega
    have hd : (n - 1) / B = q1 := by
      rw [he, Nat.add_mul_div_left _ _ (show 0 < B by omega),
        Nat.div_eq_of_lt (show B - 1 < B by omega)]
      omega
    rw [hd]
    have hcomm : q1 * B = B * q1 := Nat.mul_comm _ _
    omega
  · rw [if_neg h]
    obtain ⟨q, r, hqr, hr1, hrB⟩ : ∃ q r, n = B * q + r ∧ 1 ≤ r ∧ r < B :=
      ⟨n / B, n % B, by omega, by omega, hr⟩
    have he : n - 1 = (r - 1) + B * q := by omega
    have hd : (n - 1) / B = q := by
      rw [he, Nat.add_mul_div_left _ _ (show 0 < B by omega),
        Nat.div_eq_of_lt (show r - 1 < B by omega)]
      omega
    rw [hd]
    have hcomm : q * B = B * q := Nat.mul_comm _ _
    have hmod : n % B = r := by
      rw [hqr, Nat.mul_add_mod]
      exact Nat.mod_eq_of_lt hrB
    omega

theorem init_ok_inv {root : FSNode} {shape : Shape4} {eb sf : Bool}
    {sh : List String → List String} {b : ImageBatcher}
    (hok : ImageBatcher.init root shape eb sf sh = .ok b) :
    ∃ images0, _find_images root sf sh = .ok images0 ∧ mkBatcher images0 shape eb = .ok b := by
  unfold ImageBatcher.init at hok
  cases hfind : _find_images root sf sh with
  | error e =>
      rw [hfind] at hok
      cases hok
  | ok images0 =>
      rw [hfind] at hok
      exact ⟨images0, rfl, hok⟩

theorem handle_exact_ok_inv {images : List String} {bs : Int} {eb : Bool}
    {out : List String × Int}
    (hn : 1 ≤ images.length) (hbs : 1 ≤ bs)
    (hok : _handle_exact_batches images (images.length : Int) bs eb = .ok out) :
    out.2 = (out.1.length : Int) ∧ 1 ≤ out.1.length := by
  obtain ⟨B, rfl⟩ : ∃ B : Nat, bs = (B : Int) := ⟨bs.toNat, by omega⟩
  have hB : 1 ≤ B := by omega
  by_cases heb : eb = true
  · subst heb
    rw [handle_exact_true_natCast images B hB] at hok
    by_cases hlt : images.length < B
    · rw [if_pos hlt] at hok
      cases hok
    · rw [if_neg hlt] at hok
      have hle : B * (images.length / B) ≤ images.length := by
        have h := Nat.div_mul_le_self images.length B
        have hc : images.length / B * B = B * (images.length / B) := Nat.mul_comm _ _
        omega
      have h1 : 1 ≤ images.length / B := (Nat.one_le_div_iff (by omega)).mpr (by omega)
      have h2 : 1 ≤ B * (images.length / B) := by
        calc 1 = 1 * 1 := rfl
        _ ≤ B * (images.length / B) := Nat.mul_le_mul hB h1
      have hout : out = (images.take (B * (images.length / B)),
          ((B * (images.length / B) : Nat) : Int)) := by
        cases hok
        rfl
      subst hout
      have hlen : (images.take (B * (images.length / B))).length =
          B * (images.length / B) := by
        rw [List.length_take]
        omega
      constructor
      · show ((B * (images.length / B) : Nat) : Int) = _
        rw [hlen]
      · show 1 ≤ (images.take (B * (images.length / B))).length
        rw [hlen]
        exact h2
  · have hfalse : _handle_exact_batches images (images.length : Int) (B : Int) eb
        = .ok (images, (images.length : Int)) := by
      have heb' : eb = false := by
        revert heb
        cases eb <;> simp
      subst heb'
      rfl
    rw [hfalse] at hok
    have hout : out = (images, (images.length : Int)) := by
      cases hok
      rfl
    subst hout
    exact ⟨rfl, hn⟩

theorem mkBatcher_ok_inv {images0 : List String} {shape : Shape4} {eb : Bool}
    {b : ImageBatcher}
    (hbs : 1 ≤ shape.s0) (hok : mkBatcher images0 shape eb = .ok b) :
    1 ≤ b.images.length ∧
    b.num_images = (b.images.length : Int) ∧
    b.batch_size = shape.s0 ∧
    b.shape = shape ∧
    b.width = (_handle_tensor_shape shape).1 ∧
    b.height = (_handle_tensor_shape shape).2 ∧
    b.num_batches = 1 + Int.tdiv ((b.images.length : Int) - 1) shape.s0 ∧
    b.batches = (List.range b.num_batches.toNat).map
      (fun (i : Nat) => pySlice b.images ((i : Int) * shape.s0) (((i : Int) + 1) * shape.s0)) := by
  simp only [mkBatcher] at hok
  by_cases h1 : (images0.length : Int) < 1
  · rw [if_pos h1] at hok
    cases hok
  · rw [if_neg h1] at hok
    split at hok
    · cases hok
    · next imgs1 m hhe =>
        rw [if_neg (show ¬ shape.s0 = 0 by omega)] at hok
        obtain ⟨hm, hlen1⟩ := handle_exact_ok_inv (by omega) hbs hhe
        cases hok
        have hm' : m = (imgs1.length : Int) := hm
        have hlen1' : 1 ≤ imgs1.length := hlen1
        refine ⟨hlen1', hm', rfl, rfl, rfl, rfl, ?_, ?_⟩
        · rw [hm']
        · rw [hm']

/-- Claim C2: for every successfully constructed batcher with batch size
`shape.s0 >= 1`: `num_images` is the (positive) length of the resolved list,
the number of batches is `ceil(num_images / batch_size)`, every batch except
possibly the last has exactly `batch_size` members, the last batch has
`num_images mod batch_size` members (or `batch_size` when evenly divisible),
and concatenating the batches in order yields exactly the resolved image list
(so the batches are contiguous, non-overlapping, in-order slices of it). -/
theorem batch_partition_spec (root : FSNode) (shape : Shape4) (eb sf : Bool)
    (sh : List String → List String) (b : ImageBatcher)
    (hok : ImageBatcher.init root shape eb sf sh = .ok b)
    (hbs : 1 ≤ shape.s0) :
    b.num_images = (b.images.length : Int) ∧
    1 ≤ b.images.length ∧
    b.num_batches.toNat = (b.images.length + shape.s0.toNat - 1) / shape.s0.toNat ∧
    b.batches.length = b.num_batches.toNat ∧
    (∀ i : Nat, i + 1 < b.num_batches.toNat →
      (b.batches[i]?).map List.length = some shape.s0.toNat) ∧
    (b.batches[b.num_batches.toNat - 1]?).map List.length =
      some (if b.images.length % shape.s0.toNat = 0 then shape.s0.toNat
            else b.images.length % shape.s0.toNat) ∧
    b.batches.flatten = b.images := by
  obtain ⟨images0, hfind, hmk⟩ := init_ok_inv hok
  obtain ⟨hlen, hnum, hbsz, hshape, hw, hh, hnb, hbatches⟩ := mkBatcher_ok_inv hbs hmk
  obtain ⟨B, hB⟩ : ∃ B : Nat, shape.s0 = (B : Int) := ⟨shape.s0.toNat, by omega⟩
  have hB1 : 1 ≤ B := by omega
  have hBt : shape.s0.toNat = B := by omega
  have hsub : ((b.images.length : Int) - 1) = ((b.images.length - 1 : Nat) : Int) := by omega
  have hnb' : b.num_batches = ((1 + (b.images.length - 1) / B : Nat) : Int) := by
    rw [hnb, hB, hsub, tdiv_natCast]
    omega
  have hk : b.num_batches.toNat = 1 + (b.images.length - 1) / B := by
    rw [hnb']
    exact Int.toNat_natCast _
  have hslice : ∀ i : Nat,
      pySlice b.images ((i : Int) * shape.s0) (((i : Int) + 1) * shape.s0) =
        (b.images.drop (i * B)).take B := by
    intro i
    rw [hB]
    have e1 : ((i : Int) * (B : Int)) = ((i * B : Nat) : Int) := by push_cast; ring
    have e2 : (((i : Int) + 1) * (B : Int)) = (((i + 1) * B : Nat) : Int) := by push_cast; ring
    rw [e1, e2, pySlice_natCast]
    have e3 : (i + 1) * B = i * B + B := by ring
    congr 1
    omega
  have hbatches' : b.batches =
      (List.range (1 + (b.images.length - 1) / B)).map
        fun i => (b.images.drop (i * B)).take B := by
    rw [hbatches, hk]
    exact List.map_congr_left fun i _ => hslice i
  have hle : b.images.length ≤ (1 + (b.images.length - 1) / B) * B :=
    le_numBatches_mul b.images.length B hlen hB1
  refine ⟨hnum, hlen, ?_, ?_, ?_, ?_, ?_⟩
  · rw [hk, hBt, one_add_pred_div b.images.length B hlen hB1]
  · rw [hbatches', hk]
    simp
  · intro i hi
    rw [hk] at hi
    rw [hbatches', List.getElem?_map, List.getElem?_range (by omega)]
    have h2 : (i + 1) * B ≤ ((b.images.length - 1) / B) * B :=
      Nat.mul_le_mul_right B (by omega)
    have h3 : ((b.images.length - 1) / B) * B ≤ b.images.length - 1 :=
      Nat.div_mul_le_self _ _
    have h4 : (i + 1) * B = i * B + B := by ring
    have h5 : ((b.images.drop (i * B)).take B).length = B := by
      rw [List.length_take, List.length_drop]
      omega
    simp [h5, hBt]
  · rw [hbatches', hk, hBt]
    have hidx : 1 + (b.images.length - 1) / B - 1 = (b.images.length - 1) / B :=
      Nat.add_sub_cancel_left 1 ((b.images.length - 1) / B)
    have hlt : (b.images.length - 1) / B < 1 + (b.images.length - 1) / B := by
      rw [Nat.add_comm]
      exact Nat.lt_succ_self _
    rw [hidx, List.getElem?_map, List.getElem?_range hlt]
    have h5 : ((b.images.drop ((b.images.length - 1) / B * B)).take B).length =
        min B (b.images.length - (b.images.length - 1) / B * B) := by
      rw [List.length_take, List.length_drop]
    simp [h5, last_chunk_length b.images.length B hlen hB1]
  · rw [hbatches']
    exact flatten_chunks B _ b.images hle

/-- Claim C2 (witness): the single-file batcher with batch size 2 has one
batch whose concatenation is the resolved list, and its batch count is the
ceiling of 1/2. -/
theorem batch_partition_spec_witness :
    sampleOkBatcher.batches.flatten = sampleOkBatcher.images ∧
    sampleOkBatcher.num_batches.toNat =
      (sampleOkBatcher.images.length + (2 : Int).toNat - 1) / (2 : Int).toNat :=
  ⟨(batch_partition_spec (FSNode.file "a.jpg") ⟨2, 3, 4, 4⟩ false false id sampleOkBatcher
      (by decide) (by decide)).2.2.2.2.2.2,
   (batch_partition_spec (FSNode.file "a.jpg") ⟨2, 3, 4, 4⟩ false false id sampleOkBatcher
      (by decide) (by decide)).2.2.1⟩

/-! ### Claims C3, C4, C9: parallel batch production -/

theorem filterMap_range_getElem? {α β : Type} (xs : List α) (f : α → β) :
    ((List.range xs.length).filterMap fun i => (xs[i]?).map f) = xs.map f := by
  induction xs with
  | nil => rfl
  | cons x xs ih =>
      rw [List.length_cons, List.range_succ_eq_map,
        @List.filterMap_cons_some _ _ (fun i => ((x :: xs)[i]?).map f) 0
          (List.map Nat.succ (List.range xs.length)) (f x) (by simp),
        List.filterMap_map]
      have hcomp : ((fun i => (((x :: xs)[i]?).map f)) ∘ Nat.succ) =
          fun i => ((xs[i]?).map f) := by
        funext i
        simp [Function.comp]
      rw [hcomp, ih, List.map_cons]

theorem executorMap_perm {ε α β : Type} (f : α → Except ε β) (xs : List α)
    (schedule : List Nat) (hperm : schedule.Perm (List.range xs.length)) :
    executorMap f xs schedule = ((xs.map f).mapM id) := by
  simp only [executorMap]
  have hlook : ∀ i, i < xs.length →
      (((schedule.filterMap fun j => (xs[j]?).map fun x => (j, f x)).find?
        fun e => e.1 == i).map Prod.snd) = (xs[i]?).map f := by
    intro i hi
    obtain ⟨xv, hxv⟩ : ∃ xv, xs[i]? = some xv := by
      rw [List.getElem?_eq_getElem hi]
      exact ⟨_, rfl⟩
    have hmem : (i, f xv) ∈ schedule.filterMap fun j => (xs[j]?).map fun x => (j, f x) := by
      rw [List.mem_filterMap]
      refine ⟨i, ?_, ?_⟩
      · rw [hperm.mem_iff, List.mem_range]
        exact hi
      · rw [hxv]
        rfl
    have hsome : (((schedule.filterMap fun j => (xs[j]?).map fun x => (j, f x)).find?
        fun e => e.1 == i)).isSome := by
      rw [List.find?_isSome]
      exact ⟨(i, f xv), hmem, by simp⟩
    obtain ⟨e, he⟩ := Option.isSome_iff_exists.mp hsome
    have hp := List.find?_some he
    have hmem2 : e ∈ schedule.filterMap fun j => (xs[j]?).map fun x => (j, f x) :=
      List.mem_of_find?_eq_some he
    rw [List.mem_filterMap] at hmem2
    obtain ⟨j, hj, hje⟩ := hmem2
    cases hxj : xs[j]? with
    | none =>
        rw [hxj] at hje
        cases hje
    | some xj =>
        rw [hxj] at hje
        have he2 : e = (j, f xj) := by
          cases hje
          rfl
        subst he2
        have hij : j = i := by simpa using hp
        subst hij
        rw [he, hxv]
        rw [hxj] at hxv
        cases hxv
        rfl
  congr 1
  rw [← filterMap_range_getElem? xs f]
  apply List.filterMap_congr
  intro i hi
  rw [List.mem_range] at hi
  exact hlook i hi

theorem except_bind_ok_inv {ε γ δ : Type} {m : Except ε γ} {k : γ → Except ε δ} {d : δ}
    (h : Except.bind m k = .ok d) : ∃ c, m = .ok c ∧ k c = .ok d := by
  cases m with
  | error e => simp [Except.bind] at h
  | ok c =>
      refine ⟨c, rfl, ?_⟩
      simpa [Except.bind] using h

theorem mapM_id_cons_ok_inv {ε β : Type} {x : Except ε β} {l : List (Except ε β)}
    {l' : List β} (h : ((x :: l).mapM id) = Except.ok l') :
    ∃ b as, x = .ok b ∧ (l.mapM id) = .ok as ∧ l' = b :: as := by
  rw [List.mapM_cons] at h
  have h1 : Except.bind (id x)
      (fun a => Except.bind (l.mapM id) fun as => Except.ok (a :: as)) = Except.ok l' := h
  obtain ⟨b, hb, h2⟩ := except_bind_ok_inv h1
  obtain ⟨as, has, h3⟩ := except_bind_ok_inv h2
  refine ⟨b, as, hb, has, ?_⟩
  cases h3
  rfl

theorem mapM_id_ok_length {ε β : Type} :
    ∀ (l : List (Except ε β)) (l' : List β),
      (l.mapM id) = Except.ok l' → l'.length = l.length := by
  intro l
  induction l with
  | nil =>
      intro l' h
      have h1 : (Except.ok ([] : List β) : Except ε (List β)) = Except.ok l' := h
      cases h1
      rfl
  | cons x l ih =>
      intro l' h
      obtain ⟨b, as, hb, has, h3⟩ := mapM_id_cons_ok_inv h
      subst h3
      rw [List.length_cons, List.length_cons, ih as has]

theorem mapM_id_map_ok {ε β γ : Type} (g : γ → β) (l : List γ) :
    (((l.map fun c => Except.ok (g c)) : List (Except ε β)).mapM id) =
      Except.ok (l.map g) := by
  induction l with
  | nil => rfl
  | cons c l ih =>
      rw [List.map_cons, List.mapM_cons]
      show Except.bind (id (Except.ok (g c)))
        (fun a => Except.bind ((l.map fun c => Except.ok (g c)).mapM id)
          fun as => Except.ok (a :: as)) = _
      rw [ih]
      rfl

theorem mapM_id_error {ε β : Type} :
    ∀ (l : List (Except ε β)), (∃ r ∈ l, ∃ err, r = Except.error err) →
      ∃ err, (l.mapM id) = Except.error err := by
  intro l
  induction l with
  | nil =>
      rintro ⟨r, hr, _⟩
      cases hr
  | cons x l ih =>
      rintro ⟨r, hr, err, herr⟩
      cases x with
      | error e =>
          refine ⟨e, ?_⟩
          rw [List.mapM_cons]
          rfl
      | ok b =>
          have hmem : r ∈ l := by
            rcases List.mem_cons.mp hr with h | h
            · rw [h] at herr
              cases herr
            · exact h
          obtain ⟨err2, he2⟩ := ih ⟨r, hmem, err, herr⟩
          refine ⟨err2, ?_⟩
          rw [List.mapM_cons]
          show Except.bind (id (Except.ok b))
            (fun a => Except.bind (l.mapM id) fun as => Except.ok (a :: as)) = _
          rw [he2]
          rfl

theorem executorMap_ok_length {ε α β : Type} (f : α → Except ε β) (xs : List α)
    (schedule : List Nat) (results : List β)
    (h : executorMap f xs schedule = Except.ok results) :
    results.length ≤ xs.length := by
  simp only [executorMap] at h
  have h1 := List.length_filterMap_le (fun i =>
      (((schedule.filterMap fun j => (xs[j]?).map fun x => (j, f x)).find?
        fun e => e.1 == i).map Prod.snd)) (List.range xs.length)
  rw [List.length_range] at h1
  have h2 := mapM_id_ok_length _ _ h
  omega

theorem length_foldl_set {ρ : Type} :
    ∀ (rs : List (ChwImage × ρ)) (init : List (Nat → Nat → Nat → ℚ)) (k : Nat),
      ((rs.enumFrom k).foldl (fun bd p => bd.set p.1 p.2.1.pixel) init).length =
        init.length := by
  intro rs
  induction rs with
  | nil =>
      intro init k
      rfl
  | cons r rs ih =>
      intro init k
      rw [show ((r :: rs).enumFrom k) = (k, r) :: rs.enumFrom (k + 1) from rfl,
        List.foldl_cons, ih, List.length_set]

theorem getElem?_foldl_set {ρ : Type} :
    ∀ (rs : List (ChwImage × ρ)) (init : List (Nat → Nat → Nat → ℚ)) (k i : Nat),
      ((rs.enumFrom k).foldl (fun bd p => bd.set p.1 p.2.1.pixel) init)[i]? =
        if k ≤ i ∧ i < k + rs.length ∧ i < init.length
        then (rs[i - k]?).map fun r => r.1.pixel
        else init[i]? := by
  intro rs
  induction rs with
  | nil =>
      intro init k i
      rw [if_neg (by rw [List.length_nil]; omega)]
      rfl
  | cons r rs ih =>
      intro init k i
      rw [show ((r :: rs).enumFrom k) = (k, r) :: rs.enumFrom (k + 1) from rfl,
        List.foldl_cons, ih, List.length_set]
      by_cases h1 : k + 1 ≤ i ∧ i < k + 1 + rs.length ∧ i < init.length
      · rw [if_pos h1, if_pos (by rw [List.length_cons]; omega)]
        have hik : i - k = (i - (k + 1)) + 1 := by omega
        rw [hik, List.getElem?_cons_succ]
      · rw [if_neg h1, List.getElem?_set]
        by_cases hk : k = i
        · subst hk
          by_cases hkl : k < init.length
          · rw [if_pos rfl, if_pos hkl,
              if_pos (show k ≤ k ∧ k < k + (r :: rs).length ∧ k < init.length by
                rw [List.length_cons]
                exact ⟨Nat.le_refl k, by omega, hkl⟩)]
            rw [show k - k = 0 from by omega]
            simp
          · rw [if_pos rfl, if_neg hkl,
              if_neg (show ¬ (k ≤ k ∧ k < k + (r :: rs).length ∧ k < init.length) from
                fun hc => hkl hc.2.2)]
            exact (List.getElem?_eq_none (by omega)).symm
        · rw [if_neg hk]
          by_cases h2 : k ≤ i ∧ i < k + (r :: rs).length ∧ i < init.length
          · exfalso
            apply h1
            rw [List.length_cons] at h2
            omega
          · rw [if_neg h2]

/-- Claim C3: for every batch whose members all preprocess successfully, and
for every completion order of the parallel workers (any permutation of the
worker indices), iteration yields a tuple whose batch-tensor slot `i` holds
the preprocessed array of the `i`-th image reference of the batch, and whose
image-reference list and transform-record list are in the batch's input order. -/
theorem batch_order_spec {ρ : Type}
    (imread : String → Except DecodeError RawImage)
    (letterbox : RawImage → Int × Int → RawImage × ρ)
    (self : ImageBatcher) (bi : List String) (schedule : List Nat)
    (g : String → ChwImage × ρ)
    (hsched : schedule.Perm (List.range bi.length))
    (hpre : ∀ p ∈ bi, _preprocess_image imread letterbox self p = .ok (g p))
    (hcap : bi.length ≤ self.shape.s0.toNat) :
    ∃ t, produceBatch imread letterbox self bi schedule = .ok t ∧
      t.batch_images = bi ∧
      t.batch_shape = bi.map (fun p => (g p).2) ∧
      ∀ i : Nat, i < bi.length →
        t.batch_data[i]? = (bi[i]?).map fun p => (g p).1.pixel := by
  have hmap : bi.map (_preprocess_image imread letterbox self) =
      bi.map fun p => Except.ok (g p) := List.map_congr_left hpre
  have hex : executorMap (_preprocess_image imread letterbox self) bi schedule =
      Except.ok (bi.map g) := by
    rw [executorMap_perm _ _ _ hsched, hmap, mapM_id_map_ok]
  refine ⟨⟨(((bi.map g).enum).foldl (fun bd p => bd.set p.1 p.2.1.pixel)
      (List.replicate self.shape.s0.toNat fun _ _ _ => 0)), bi, (bi.map g).map Prod.snd⟩,
    ?_, rfl, ?_, ?_⟩
  · simp only [produceBatch]
    rw [hex]
  · show (bi.map g).map Prod.snd = bi.map fun p => (g p).2
    rw [List.map_map]
    rfl
  · intro i hi
    show ((((bi.map g).enum).foldl (fun bd p => bd.set p.1 p.2.1.pixel)
      (List.replicate self.shape.s0.toNat fun _ _ _ => 0)))[i]? = _
    rw [show (bi.map g).enum = (bi.map g).enumFrom 0 from rfl, getElem?_foldl_set,
      if_pos (by
        refine ⟨by omega, ?_, ?_⟩
        · rw [List.length_map]
          omega
        · rw [List.length_replicate]
          omega)]
    rw [show i - 0 = i from by omega, List.getElem?_map, Option.map_map]
    rfl

/-- Claim C3 (witness): the sample one-image batch with the identity schedule. -/
theorem batch_order_spec_witness :
    ∃ t, produceBatch okread idLetterbox sampleOkBatcher ["a.jpg"] [0] = .ok t ∧
      t.batch_images = ["a.jpg"] ∧
      t.batch_shape = ["a.jpg"].map (fun p => (sampleG p).2) ∧
      ∀ i : Nat, i < (["a.jpg"] : List String).length →
        t.batch_data[i]? = ((["a.jpg"] : List String)[i]?).map fun p => (sampleG p).1.pixel :=
  batch_order_spec okread idLetterbox sampleOkBatcher ["a.jpg"] [0] sampleG
    (by decide) (fun p _ => rfl) (by decide)

/-- Claim C4: every successfully produced batch tuple has a batch tensor with
exactly `shape.s0.toNat` slots (the full descriptor batch dimension), and
every slot at an index at or beyond the batch's member count holds the
all-zero array. -/
theorem batch_tensor_shape_spec {ρ : Type}
    (imread : String → Except DecodeError RawImage)
    (letterbox : RawImage → Int × Int → RawImage × ρ)
    (self : ImageBatcher) (bi : List String) (schedule : List Nat) (t : BatchTuple ρ)
    (hok : produceBatch imread letterbox self bi schedule = .ok t) :
    t.batch_data.length = self.shape.s0.toNat ∧
    ∀ i : Nat, bi.length ≤ i → i < self.shape.s0.toNat →
      t.batch_data[i]? = some fun _ _ _ => (0 : ℚ) := by
  simp only [produceBatch] at hok
  cases hex : executorMap (_preprocess_image imread letterbox self) bi schedule with
  | error e =>
      rw [hex] at hok
      cases hok
  | ok results =>
      rw [hex] at hok
      have hok' : Except.ok (⟨((results.enum).foldl (fun bd p => bd.set p.1 p.2.1.pixel)
          (List.replicate self.shape.s0.toNat fun _ _ _ => 0)), bi,
          results.map Prod.snd⟩ : BatchTuple ρ) = Except.ok t := hok
      cases hok'
      have hrlen : results.length ≤ bi.length := executorMap_ok_length _ _ _ _ hex
      constructor
      · show ((results.enum).foldl (fun bd p => bd.set p.1 p.2.1.pixel)
          (List.replicate self.shape.s0.toNat fun _ _ _ => 0)).length = _
        rw [show results.enum = results.enumFrom 0 from rfl, length_foldl_set,
          List.length_replicate]
      · intro i h1 h2
        show ((results.enum).foldl (fun bd p => bd.set p.1 p.2.1.pixel)
          (List.replicate self.shape.s0.toNat fun _ _ _ => 0))[i]? = _
        rw [show results.enum = results.enumFrom 0 from rfl, getElem?_foldl_set,
          if_neg (by
            intro hc
            omega),
          List.getElem?_replicate, if_pos h2]

/-- Claim C4 (witness): the sample one-image batch in a two-slot tensor leaves
slot 1 all-zero. -/
theorem batch_tensor_shape_spec_witness :
    sampleTuple.batch_data.length = sampleOkBatcher.shape.s0.toNat ∧
    sampleTuple.batch_data[1]? = some fun _ _ _ => (0 : ℚ) :=
  ⟨(batch_tensor_shape_spec okread idLetterbox sampleOkBatcher ["a.jpg"] [0] sampleTuple rfl).1,
   (batch_tensor_shape_spec okread idLetterbox sampleOkBatcher ["a.jpg"] [0] sampleTuple rfl).2
      1 (by decide) (by decide)⟩

/-- Claim C9: if any image of a batch fails to decode, producing that batch
fails with a `DecodeError` (under any completion order that is a permutation
of the worker indices): no batch tuple is yielded, the error surfaces to the
caller, and the damaged image is never skipped or substituted. -/
theorem decode_error_spec {ρ : Type}
    (imread : String → Except DecodeError RawImage)
    (letterbox : RawImage → Int × Int → RawImage × ρ)
    (self : ImageBatcher) (bi : List String) (schedule : List Nat)
    (p : String) (e : DecodeError)
    (hsched : schedule.Perm (List.range bi.length))
    (hp : p ∈ bi) (he : imread p = .error e) :
    ∃ err, produceBatch imread letterbox self bi schedule = .error err := by
  have hpre : _preprocess_image imread letterbox self p = .error e := by
    simp only [_preprocess_image]
    rw [he]
  have hmem : Except.error e ∈ bi.map (_preprocess_image imread letterbox self) := by
    rw [List.mem_map]
    exact ⟨p, hp, hpre⟩
  obtain ⟨err, herr⟩ := mapM_id_error _ ⟨_, hmem, e, rfl⟩
  refine ⟨err, ?_⟩
  simp only [produceBatch]
  rw [executorMap_perm _ _ _ hsched, herr]

/-- Claim C9 (witness): a decoder that fails on the sample image aborts the
batch. -/
theorem decode_error_spec_witness :
    ∃ err, produceBatch failread idLetterbox sampleOkBatcher ["a.jpg"] [0] = .error err :=
  decode_error_spec failread idLetterbox sampleOkBatcher ["a.jpg"] [0] "a.jpg"
    (.decodeFailed "a.jpg") (by decide) (by decide) rfl

/-! ### Claim C7: the per-image preprocessing pipeline -/

/-- Claim C7: when the decode step succeeds, preprocessing returns exactly the
letterboxed image (resized toward the batcher's inferred `(height, width)`
target) reindexed from `(y, x, c)` in BGR order to `(c, y, x)` with output
channel `c` read from input channel `2 - c` and every intensity divided by
255, paired with the letterbox transform record — and the result depends only
on the inferred height and width, not on the declared tensor-shape layout
(the channel-first reorder is unconditional). -/
theorem preprocess_pipeline_spec {ρ : Type}
    (imread : String → Except DecodeError RawImage)
    (letterbox : RawImage → Int × Int → RawImage × ρ)
    (self : ImageBatcher) (p : String) (raw : RawImage)
    (hdec : imread p = .ok raw) :
    _preprocess_image imread letterbox self p =
      .ok (⟨(letterbox raw (self.height, self.width)).1.height,
            (letterbox raw (self.height, self.width)).1.width,
            fun c y x => (letterbox raw (self.height, self.width)).1.pixel y x (2 - c) / 255⟩,
           (letterbox raw (self.height, self.width)).2) ∧
    ∀ self' : ImageBatcher, self'.height = self.height → self'.width = self.width →
      _preprocess_image imread letterbox self' p =
        _preprocess_image imread letterbox self p := by
  constructor
  · simp only [_preprocess_image]
    rw [hdec]
  · intro self' hh hw
    simp only [_preprocess_image]
    rw [hh, hw]

/-- Claim C7 (witness): the pipeline on the sample image and collaborators. -/
theorem preprocess_pipeline_spec_witness :
    _preprocess_image okread idLetterbox sampleOkBatcher "a.jpg" =
      .ok (⟨(idLetterbox sampleRaw (sampleOkBatcher.height, sampleOkBatcher.width)).1.height,
            (idLetterbox sampleRaw (sampleOkBatcher.height, sampleOkBatcher.width)).1.width,
            fun c y x => (idLetterbox sampleRaw
              (sampleOkBatcher.height, sampleOkBatcher.width)).1.pixel y x (2 - c) / 255⟩,
           (idLetterbox sampleRaw (sampleOkBatcher.height, sampleOkBatcher.width)).2) :=
  (preprocess_pipeline_spec okread idLetterbox sampleOkBatcher "a.jpg" sampleRaw rfl).1
